import Mathlib

set_option maxRecDepth 8192

/-!
Formal model of the coindcx-trader core: the price tracker
(`src/core/tracker.py`), the alert system (`src/core/alerts.py`), the order
bookkeeping layer (`src/core/trader.py`) and the trading state machine
(`src/scripts/auto_trader.py`).  External collaborators (the exchange REST
client and the webhook notifier) are modelled as oracles: each polling cycle
receives the outcome every network call would produce, either a value or an
exception.  The webhook notifier swallows request failures and returns a
boolean (`DiscordWebhook._send_payload`), so notification calls are modelled
as pure events that never raise.  Prices, balances and quantities are
modelled as exact rationals.
-/

namespace CoinDCX

/-- An exception escaping a collaborator call, as seen by the core. -/
inductive PyErr where
  | valueError
  | zeroDivisionError
  | apiError
  deriving DecidableEq, Repr

/-! ## Price tracker (`src/core/tracker.py`) -/

/-- A ticker snapshot as consumed by `PriceTracker`; `last_price` is `none`
when the key is missing from the exchange response (`ticker.get("last_price", 0)`
then falls back to `0`). -/
structure Ticker where
  last_price : Option ℚ
  deriving DecidableEq

/-- One entry of `PriceTracker.price_history`:
`{"timestamp": int(time.time()), "price": price}`. -/
structure PriceSample where
  timestamp : ℕ
  price : ℚ
  deriving DecidableEq, Repr

/-- Python truthiness fallback `x or d` for an optional numeric value:
`None` and `0` both fall through to the default. -/
def pyOr (x : Option ℚ) (d : ℚ) : ℚ :=
  match x with
  | none => d
  | some v => if v = 0 then d else v

/-- Mutable state of a `PriceTracker` instance. -/
structure TrackerState where
  current_price : Option ℚ
  price_history : List PriceSample
  deriving DecidableEq

/-- A fresh `PriceTracker`: `current_price = None`, `price_history = []`. -/
def TrackerState.init : TrackerState :=
  { current_price := none, price_history := [] }

/-- `PriceTracker.get_current_price`: on a successful ticker fetch, read
`last_price` (defaulting to `0`), cache it and return it; on any exception,
log and return `self.current_price or 0` with the state unchanged. -/
def get_current_price (st : TrackerState) (res : Except PyErr Ticker) :
    ℚ × TrackerState :=
  match res with
  | .ok ticker =>
      let price := ticker.last_price.getD 0
      (price, { st with current_price := some price })
  | .error _ => (pyOr st.current_price 0, st)

/-- One iteration of the history maintenance in `PriceTracker.start_tracking`:
append the new sample, then `pop(0)` when the buffer holds more than 1000
entries. -/
def historyStep (hist : List PriceSample) (timestamp : ℕ) (price : ℚ) :
    List PriceSample :=
  let h := hist ++ [{ timestamp := timestamp, price := price }]
  if 1000 < h.length then h.drop 1 else h

/-- The history buffer after running `start_tracking` cycles over a list of
(timestamp, observed price) pairs. -/
def historyRun (hist : List PriceSample) : List (ℕ × ℚ) → List PriceSample
  | [] => hist
  | (t, p) :: rest => historyRun (historyStep hist t p) rest

/-- Sample built from one tracking cycle's (timestamp, price) input. -/
def mkSample (input : ℕ × ℚ) : PriceSample :=
  { timestamp := input.1, price := input.2 }

/-- Python slice `h[i:]` on the history list: a negative start counts from
the end (clamped at the front), a non-negative start is clamped at the
length. -/
def pySliceFrom (h : List PriceSample) (i : ℤ) : List PriceSample :=
  if i < 0 then h.drop ((h.length : ℤ) + i).toNat
  else h.drop (min i (h.length : ℤ)).toNat

/-- `PriceTracker.get_price_history(limit)`: `if limit and limit < len(h):
return h[-limit:]` else the whole history.  A `limit` of `None` or `0` is
falsy and yields the whole history. -/
def get_price_history (hist : List PriceSample) (limit : Option ℤ) :
    List PriceSample :=
  match limit with
  | some l => if l ≠ 0 ∧ l < (hist.length : ℤ) then pySliceFrom hist (-l) else hist
  | none => hist

/-- Modelled from the spec: the most recent `n` samples of a history, i.e.
the suffix of length `min n (length hist)`.  Used only to compare
`get_price_history` against the specified behaviour. -/
def specMostRecent (n : ℕ) (hist : List PriceSample) : List PriceSample :=
  hist.drop (hist.length - n)

/-! ## Alert system (`src/core/alerts.py`) -/

/-- Python `str.lower()` restricted to its ASCII behaviour, which is all the
source applies it to (alert-type keys). -/
def pyLower (s : String) : String :=
  ⟨s.data.map Char.toLower⟩

/-- Identifier stored in `AlertSystem.triggered_alerts`.  The source stores
the string `f"{alert_type}_{threshold}"`; since dictionary keys are distinct
strings and the decimal rendering of a float contains no underscore, that
encoding is injective on the (alert_type, threshold) pairs of one threshold
mapping, so the pair itself is used as the identifier. -/
abbrev AlertId := String × ℚ

/-- One record returned by `AlertSystem.check_alerts`. -/
structure TriggeredAlert where
  type : String
  threshold : ℚ
  current_price : ℚ
  deriving DecidableEq, Repr

/-- Per-entry body of the `for alert_type, threshold in self.thresholds.items()`
loop in `AlertSystem.check_alerts`, threaded over the accumulated triggered
list and the `triggered_alerts` set. -/
def checkEntry (price : ℚ) (acc : List TriggeredAlert × Finset AlertId)
    (entry : String × ℚ) : List TriggeredAlert × Finset AlertId :=
  let alert_type := entry.1
  let threshold := entry.2
  let alert_id : AlertId := (alert_type, threshold)
  let triggered := acc.1
  let S := acc.2
  if pyLower alert_type = "high" ∧ price ≥ threshold then
    if alert_id ∉ S then
      (triggered ++ [⟨alert_type, threshold, price⟩], insert alert_id S)
    else (triggered, S)
  else if pyLower alert_type = "low" ∧ price ≤ threshold then
    if alert_id ∉ S then
      (triggered ++ [⟨alert_type, threshold, price⟩], insert alert_id S)
    else (triggered, S)
  else if (pyLower alert_type = "high" ∧ price < threshold * 0.98) ∨
          (pyLower alert_type = "low" ∧ price > threshold * 1.02) then
    (triggered, S.erase alert_id)
  else (triggered, S)

/-- `AlertSystem.check_alerts(current_price)`: fold the per-entry body over
the threshold mapping, returning the list of newly triggered alerts and the
updated `triggered_alerts` set. -/
def check_alerts (thresholds : List (String × ℚ)) (S : Finset AlertId)
    (price : ℚ) : List TriggeredAlert × Finset AlertId :=
  thresholds.foldl (checkEntry price) ([], S)

/-- The re-arm (hysteresis) condition of `check_alerts` for one identifier:
a high alert re-arms below 98% of its threshold, a low alert above 102%. -/
def rearms (alert_type : String) (threshold price : ℚ) : Prop :=
  (pyLower alert_type = "high" ∧ price < threshold * 0.98) ∨
  (pyLower alert_type = "low" ∧ price > threshold * 1.02)

instance (alert_type : String) (threshold price : ℚ) :
    Decidable (rearms alert_type threshold price) := by
  unfold rearms
  infer_instance

/-- The `triggered_alerts` set after feeding a price sequence one price at a
time through `check_alerts`. -/
def runSet (thresholds : List (String × ℚ)) (S : Finset AlertId)
    (ps : List ℚ) : Finset AlertId :=
  ps.foldl (fun S p => (check_alerts thresholds S p).2) S

/-- The per-step trigger log of feeding a price sequence one price at a time
through `check_alerts`. -/
def runLog (thresholds : List (String × ℚ)) (S : Finset AlertId) :
    List ℚ → List (List TriggeredAlert)
  | [] => []
  | p :: rest =>
      (check_alerts thresholds S p).1 ::
        runLog thresholds (check_alerts thresholds S p).2 rest

/-- The pair (alert_type, threshold) fires at step `i` of a price sequence:
its trigger record appears in the output of the `i`-th `check_alerts` call. -/
def firesAt (thresholds : List (String × ℚ)) (S : Finset AlertId)
    (ps : List ℚ) (alert_type : String) (threshold : ℚ) (i : ℕ) : Prop :=
  (⟨alert_type, threshold, ps.getD i 0⟩ : TriggeredAlert) ∈
    (check_alerts thresholds (runSet thresholds S (ps.take i)) (ps.getD i 0)).1

/-- Arguments of one `DiscordWebhook.send_price_alert` call made by
`AlertSystem.price_callback`: (market, current_price, alert_type, threshold). -/
abbrev AlertNotification := String × ℚ × String × ℚ

/-- `AlertSystem.price_callback(price)`: run `check_alerts` and forward each
triggered alert to the notifier (which never raises). -/
def price_callback (pair : String) (thresholds : List (String × ℚ))
    (S : Finset AlertId) (price : ℚ) :
    List AlertNotification × Finset AlertId :=
  let out := check_alerts thresholds S price
  (out.1.map (fun a => (pair, a.current_price, a.type, a.threshold)), out.2)

/-- Alert processing as a registered `PriceTracker` callback: each cycle of
`PriceTracker.start_tracking` appends the observed price to the history and
then invokes `price_callback` with it (callback exceptions are caught
per-callback; `price_callback` is total here since the notifier never
raises).  Returns the notification log, the final triggered set and the
final history. -/
def trackerModeRun (pair : String) (thresholds : List (String × ℚ))
    (hist : List PriceSample) (S : Finset AlertId) :
    List (ℕ × ℚ) → List AlertNotification × Finset AlertId × List PriceSample
  | [] => ([], S, hist)
  | (t, p) :: rest =>
      let hist₁ := historyStep hist t p
      let step := price_callback pair thresholds S p
      let tail := trackerModeRun pair thresholds hist₁ step.2 rest
      (step.1 ++ tail.1, tail.2.1, tail.2.2)

/-- Alert processing as the standalone `monitor_loop` of
`AlertSystem.start_monitoring`: each cycle invokes `price_callback` with the
observed price.  Returns the notification log and the final triggered set. -/
def standaloneRun (pair : String) (thresholds : List (String × ℚ))
    (S : Finset AlertId) : List ℚ → List AlertNotification × Finset AlertId
  | [] => ([], S)
  | p :: rest =>
      let step := price_callback pair thresholds S p
      let tail := standaloneRun pair thresholds step.2 rest
      (step.1 ++ tail.1, tail.2)

/-! ## Trader bookkeeping (`src/core/trader.py`) -/

/-- One value of `Trader.active_orders`.  The record is created with status
`"placed"`; later status polls overwrite it with whatever the exchange
returned for the `"status"` key, which may be absent (`None`). -/
structure OrderInfo where
  type : String
  price : ℚ
  quantity : ℚ
  total : ℚ
  status : Option String
  timestamp : ℕ
  deriving DecidableEq, Repr

/-- `Trader` state: the `active_orders` dictionary, as an insertion-ordered
association list with distinct keys. -/
structure TraderState where
  active_orders : List (String × OrderInfo)
  deriving DecidableEq

/-- Python dictionary assignment `d[k] = v`: overwrite in place when the key
exists, append otherwise. -/
def dictSet (d : List (String × OrderInfo)) (k : String) (v : OrderInfo) :
    List (String × OrderInfo) :=
  if d.any (fun p => p.1 == k) then
    d.map (fun p => if p.1 = k then (k, v) else p)
  else d ++ [(k, v)]

/-- The status update `self.active_orders[order_id]["status"] = s` performed
by `Trader.get_order_status` when the id is a known key. -/
def setStatus (d : List (String × OrderInfo)) (k : String) (s : Option String) :
    List (String × OrderInfo) :=
  d.map (fun p => if p.1 = k then (p.1, { p.2 with status := s }) else p)

/-- Terminal order statuses: the source tests membership in
`["filled", "cancelled"]`. -/
def isTerminal (s : Option String) : Bool :=
  s == some "filled" || s == some "cancelled"

/-- `Trader.get_active_orders`: the tracked records whose status is not in
`["filled", "cancelled"]`. -/
def get_active_orders (st : TraderState) : List OrderInfo :=
  (st.active_orders.filter (fun p => !isTerminal p.2.status)).map Prod.snd

/-- Exchange response to `place_order`: the core reads only `order.get("id")`,
which may be absent. -/
structure ApiOrder where
  id : Option String
  deriving DecidableEq

/-- Exchange response to `get_order_status`: the core reads only
`status.get("status")`. -/
structure StatusResp where
  status : Option String
  deriving DecidableEq

/-- Parsed output of `Trader.get_account_balance` as consumed by the trading
loop: the available crypto and fiat amounts (the pair-splitting parse is
orthogonal to every property proved here and is folded into the oracle). -/
structure Balance where
  crypto_available : ℚ
  fiat_available : ℚ
  deriving DecidableEq

/-- Python truthiness of an optional order id: `None` and `""` are falsy. -/
def truthy (o : Option String) : Bool :=
  match o with
  | none => false
  | some s => s != ""

/-- Truncation toward zero of a rational to an integer, the `ROUND_DOWN`
mode of `Decimal.quantize`. -/
def truncTowardZero (x : ℚ) : ℤ :=
  if 0 ≤ x then ⌊x⌋ else -⌊-x⌋

/-- `Decimal(x).quantize(Decimal(&quot;0.00000001&quot;), rounding=ROUND_DOWN)`:
truncate toward zero to 8 decimal places. -/
def roundDown8 (x : ℚ) : ℚ :=
  ((truncTowardZero (x * 100000000) : ℤ) : ℚ) / 100000000

/-- Result of a `Trader.place_buy_order` / `place_sell_order` call:
the value returned or exception raised, the trader state afterwards, the
`api.place_order` call made (side, price, quantity) if any, and whether a
trade notification was sent. -/
structure PlaceOutcome where
  result : Except PyErr ApiOrder
  trader : TraderState
  apiCall : Option (String × ℚ × ℚ)
  notified : Bool

/-- `Trader.place_buy_order(price, quantity, total_amount)`: when only
`total_amount` is given, the quantity is `total_amount / price` truncated
toward zero to 8 decimal places (a zero price raises where Python divides);
with neither argument a `ValueError` is raised before any exchange call.
On a successful exchange call the order is recorded under its id (when the
id is truthy) with status `"placed"`, and a trade notification is sent. -/
def place_buy_order (st : TraderState) (price : ℚ)
    (quantity total_amount : Option ℚ) (apiRes : Except PyErr ApiOrder)
    (now : ℕ) : PlaceOutcome :=
  match total_amount, quantity with
  | some t, none =>
      if price = 0 then ⟨.error .zeroDivisionError, st, none, false⟩
      else placeWith st price (roundDown8 (t / price)) apiRes now
  | _, none => ⟨.error .valueError, st, none, false⟩
  | _, some q => placeWith st price q apiRes now
where
  /-- The part of `place_buy_order` from the exchange call on, with the
  quantity resolved. -/
  placeWith (st : TraderState) (price q : ℚ) (apiRes : Except PyErr ApiOrder)
      (now : ℕ) : PlaceOutcome :=
    match apiRes with
    | .error e => ⟨.error e, st, some ("buy", price, q), false⟩
    | .ok order =>
        let st₁ :=
          if truthy order.id then
            { active_orders :=
                dictSet st.active_orders (order.id.getD "")
                  ⟨"buy", price, q, price * q, some "placed", now⟩ }
          else st
        ⟨.ok order, st₁, some ("buy", price, q), true⟩

/-- `Trader.place_sell_order(price, quantity)`: place the exchange call,
record the order under its id (when truthy) with status `"placed"`, send a
trade notification. -/
def place_sell_order (st : TraderState) (price quantity : ℚ)
    (apiRes : Except PyErr ApiOrder) (now : ℕ) : PlaceOutcome :=
  match apiRes with
  | .error e => ⟨.error e, st, some ("sell", price, quantity), false⟩
  | .ok order =>
      let st₁ :=
        if truthy order.id then
          { active_orders :=
              dictSet st.active_orders (order.id.getD "")
                ⟨"sell", price, quantity, price * quantity, some "placed", now⟩ }
        else st
      ⟨.ok order, st₁, some ("sell", price, quantity), true⟩

/-! ## Trading state machine (`src/scripts/auto_trader.py`) -/

/-- The configured strategy prices of an `AutoTrader`. -/
structure AutoConfig where
  buy_price : ℚ
  sell_price : ℚ

/-- Mutable state of an `AutoTrader` (including its owned `Trader`). -/
structure AutoState where
  in_position : Bool
  current_order_id : Option String
  buy_order_price : Option ℚ
  buy_order_quantity : Option ℚ
  trader : TraderState
  deriving DecidableEq

/-- The initial `AutoTrader` state: flat, no pending order, no tracked
orders. -/
def AutoState.init : AutoState :=
  { in_position := false
    current_order_id := none
    buy_order_price := none
    buy_order_quantity := none
    trader := { active_orders := [] } }

/-- Outcomes of the collaborator calls one polling cycle would make,
supplied by the environment. -/
structure CycleEnv where
  statusRes : Except PyErr StatusResp
  balanceRes : Except PyErr Balance
  placeRes : Except PyErr ApiOrder
  now : ℕ

/-- Observable events of one polling cycle: the `api.place_order` calls made
(side, price, quantity) and whether a balance fetch happened. -/
structure CycleEvents where
  placeCalls : List (String × ℚ × ℚ)
  balanceFetched : Bool
  deriving DecidableEq

/-- The order-status section of `AutoTrader.check_price_and_trade`: when a
truthy order id is pending, poll its status inside a try/except.  A `filled`
status toggles `in_position` and clears the id; `cancelled` clears the id;
`open`/`partially_filled` requests an early return (the second component);
an exception is caught and changes nothing.  `Trader.get_order_status` also
overwrites the tracked record's status when the id is a known key. -/
def resolveOrder (st : AutoState) (env : CycleEnv) : AutoState × Bool :=
  match st.current_order_id with
  | none => (st, false)
  | some oid =>
      if oid = "" then (st, false)
      else
        match env.statusRes with
        | .error _ => (st, false)
        | .ok resp =>
            let st₁ : AutoState :=
              { st with trader :=
                  { active_orders := setStatus st.trader.active_orders oid resp.status } }
            let st₂ : AutoState :=
              if resp.status = some "filled" then
                if st₁.in_position = false then
                  { st₁ with in_position := true, current_order_id := none }
                else
                  { st₁ with in_position := false, current_order_id := none }
              else if resp.status = some "cancelled" then
                { st₁ with current_order_id := none }
              else st₁
            (st₂, resp.status = some "open" ∨ resp.status = some "partially_filled")

/-- The order-placement section of `AutoTrader.check_price_and_trade`: when
flat with no truthy pending id and the price is at or below the buy price,
fetch the balance, compute `spend = min(available_fiat * 0.95, 1000)` and,
when `spend > 10`, place a limit buy sized from `spend`; when in position
with no truthy pending id and the price is at or above the sell price, fetch
the balance and sell the full available crypto when positive.  Every
exception is caught and leaves the state as it was before the failing
call. -/
def placePhase (cfg : AutoConfig) (st : AutoState) (price : ℚ)
    (env : CycleEnv) : AutoState × CycleEvents :=
  if st.in_position = false ∧ truthy st.current_order_id = false then
    if price ≤ cfg.buy_price then
      match env.balanceRes with
      | .error _ => (st, ⟨[], true⟩)
      | .ok bal =>
          let total_amount := min (bal.fiat_available * 0.95) 1000
          if total_amount > 10 then
            let out := place_buy_order st.trader price none (some total_amount)
              env.placeRes env.now
            match out.result with
            | .error _ => ({ st with trader := out.trader }, ⟨out.apiCall.toList, true⟩)
            | .ok order =>
                ({ st with
                    trader := out.trader
                    current_order_id := order.id
                    buy_order_price := some price
                    buy_order_quantity := some (total_amount / price) },
                 ⟨out.apiCall.toList, true⟩)
          else (st, ⟨[], true⟩)
    else (st, ⟨[], false⟩)
  else if st.in_position = true ∧ truthy st.current_order_id = false then
    if price ≥ cfg.sell_price then
      match env.balanceRes with
      | .error _ => (st, ⟨[], true⟩)
      | .ok bal =>
          if bal.crypto_available > 0 then
            let out := place_sell_order st.trader price bal.crypto_available
              env.placeRes env.now
            match out.result with
            | .error _ => ({ st with trader := out.trader }, ⟨out.apiCall.toList, true⟩)
            | .ok order =>
                ({ st with trader := out.trader, current_order_id := order.id },
                 ⟨out.apiCall.toList, true⟩)
          else (st, ⟨[], true⟩)
    else (st, ⟨[], false⟩)
  else (st, ⟨[], false⟩)

/-- `AutoTrader.check_price_and_trade(current_price)`: resolve any pending
order first; an `open`/`partially_filled` status returns early, otherwise
the placement section runs. -/
def check_price_and_trade (cfg : AutoConfig) (st : AutoState) (price : ℚ)
    (env : CycleEnv) : AutoState × CycleEvents :=
  if (resolveOrder st env).2 then ((resolveOrder st env).1, ⟨[], false⟩)
  else placePhase cfg (resolveOrder st env).1 price env

/-- The states an `AutoTrader` can reach from the initial flat state by any
sequence of polling cycles, under any environment behaviour. -/
inductive Reachable (cfg : AutoConfig) : AutoState → Prop where
  | init : Reachable cfg AutoState.init
  | step (st : AutoState) (price : ℚ) (env : CycleEnv) :
      Reachable cfg st → Reachable cfg (check_price_and_trade cfg st price env).1

/-! ## Theorems: price tracker -/

/-- Helper: the last element reported by `getLast?` is a member. -/
theorem mem_of_getLast?_eq {α : Type} : ∀ {l : List α} {a : α},
    l.getLast? = some a → a ∈ l
  | [], a, h => by simp [List.getLast?] at h
  | [b], a, h => by
      simp [List.getLast?] at h
      simp [h]
  | b :: c :: t, a, h => by
      rw [List.getLast?_cons_cons] at h
      exact List.mem_cons_of_mem b (mem_of_getLast?_eq h)

/-- Helper: a bounded history evolves as the suffix of the full append log. -/
theorem historyRun_eq_drop (inputs : List (ℕ × ℚ)) :
    ∀ hist : List PriceSample, hist.length ≤ 1000 →
      historyRun hist inputs =
        (hist ++ inputs.map mkSample).drop (hist.length + inputs.length - 1000) := by
  induction inputs with
  | nil =>
      intro hist h
      simp [historyRun, Nat.sub_eq_zero_of_le h]
  | cons ip rest ih =>
      intro hist h
      obtain ⟨t, p⟩ := ip
      have hstep : historyRun hist ((t, p) :: rest) = historyRun (historyStep hist t p) rest := rfl
      rw [hstep]
      rw [show historyStep hist t p
          = if 1000 < hist.length + 1 then (hist ++ [mkSample (t, p)]).drop 1
            else hist ++ [mkSample (t, p)] from by simp [historyStep, mkSample]]
      by_cases hc : 1000 < hist.length + 1
      · rw [if_pos hc]
        have hlen : hist.length = 1000 := by omega
        have hdlen : ((hist ++ [mkSample (t, p)]).drop 1).length ≤ 1000 := by simp [hlen]
        rw [ih _ hdlen]
        have hd1 : ((hist ++ [mkSample (t, p)]).drop 1).length = 1000 := by simp [hlen]
        rw [hd1]
        have happ : (hist ++ [mkSample (t, p)]).drop 1 ++ rest.map mkSample
            = ((hist ++ [mkSample (t, p)]) ++ rest.map mkSample).drop 1 :=
          (List.drop_append_of_le_length (by simp)).symm
        rw [happ, List.drop_drop, List.map_cons]
        have hassoc : hist ++ mkSample (t, p) :: rest.map mkSample
            = (hist ++ [mkSample (t, p)]) ++ rest.map mkSample := by simp
        rw [hassoc]
        have hidx : 1 + (1000 + rest.length - 1000)
            = hist.length + ((t, p) :: rest).length - 1000 := by
          simp only [List.length_cons]
          omega
        rw [hidx]
      · rw [if_neg hc]
        rw [ih _ (by simp only [List.length_append, List.length_singleton]; omega)]
        rw [List.map_cons]
        have hassoc : hist ++ mkSample (t, p) :: rest.map mkSample
            = (hist ++ [mkSample (t, p)]) ++ rest.map mkSample := by simp
        rw [hassoc]
        have hidx : (hist ++ [mkSample (t, p)]).length + rest.length - 1000
            = hist.length + ((t, p) :: rest).length - 1000 := by
          simp only [List.length_append, List.length_singleton, List.length_cons,
            List.length_nil]
          omega
        rw [hidx]

/-- Claim C6: the price-history buffer of `start_tracking` holds at most 1000
samples and evicts oldest-first: after 1001 appends the history is exactly
the last 1000 appended samples, so the newest sample is present and the
first-appended one is gone, and timestamps stay non-decreasing whenever the
observed clock readings are non-decreasing. -/
theorem C6_history_buffer (inputs : List (ℕ × ℚ)) :
    (historyRun [] inputs).length ≤ 1000 ∧
    (inputs.length = 1001 → historyRun [] inputs = (inputs.map mkSample).drop 1) ∧
    (inputs.length = 1001 → ∀ s, (inputs.map mkSample).getLast? = some s →
      s ∈ historyRun [] inputs) ∧
    (inputs.length = 1001 → (inputs.map mkSample).Nodup →
      ∀ s, (inputs.map mkSample).head? = some s → s ∉ historyRun [] inputs) ∧
    (List.Pairwise (· ≤ ·) (inputs.map Prod.fst) →
      List.Pairwise (· ≤ ·) ((historyRun [] inputs).map PriceSample.timestamp)) := by
  have key := historyRun_eq_drop inputs [] (by simp)
  simp only [List.nil_append, List.length_nil, Nat.zero_add] at key
  have hlen1001 : inputs.length = 1001 →
      historyRun [] inputs = (inputs.map mkSample).drop 1 := by
    intro h
    rw [key, h]
  refine ⟨?_, hlen1001, ?_, ?_, ?_⟩
  · rw [key]
    simp only [List.length_drop, List.length_map]
    omega
  · intro h s hs
    rw [hlen1001 h]
    have hmap : (inputs.map mkSample).length = 1001 := by simp [h]
    obtain ⟨a, l₁, heq⟩ := List.exists_cons_of_ne_nil
      (α := PriceSample) (l := inputs.map mkSample)
      (by intro hnil; rw [hnil] at hmap; simp at hmap)
    rw [heq] at hs hmap ⊢
    obtain ⟨b, l₂, heq₂⟩ := List.exists_cons_of_ne_nil (α := PriceSample) (l := l₁)
      (by intro hnil; rw [hnil] at hmap; simp at hmap)
    rw [heq₂] at hs ⊢
    rw [List.getLast?_cons_cons] at hs
    simpa using mem_of_getLast?_eq hs
  · intro h hnd s hs
    rw [hlen1001 h]
    have hmap : (inputs.map mkSample).length = 1001 := by simp [h]
    obtain ⟨a, l₁, heq⟩ := List.exists_cons_of_ne_nil
      (α := PriceSample) (l := inputs.map mkSample)
      (by intro hnil; rw [hnil] at hmap; simp at hmap)
    rw [heq] at hs hnd ⊢
    simp only [List.head?_cons, Option.some.injEq] at hs
    subst hs
    simp only [List.nodup_cons] at hnd
    simpa using hnd.1
  · intro h
    rw [key, List.map_drop]
    have hsub : ((inputs.map mkSample).map PriceSample.timestamp) = inputs.map Prod.fst := by
      rw [List.map_map]
      rfl
    rw [hsub]
    exact List.Pairwise.sublist (List.drop_sublist _ _) h

/-- Witness for C6 at a concrete input, discharging the monotone-timestamps
hypothesis. -/
theorem C6_history_buffer_witness :
    List.Pairwise (· ≤ ·) ([((0 : ℕ), (1 : ℚ)), (1, 2)].map Prod.fst) ∧
    List.Pairwise (· ≤ ·)
      ((historyRun [] [((0 : ℕ), (1 : ℚ)), (1, 2)]).map PriceSample.timestamp) := by
  have h : List.Pairwise (· ≤ ·) ([((0 : ℕ), (1 : ℚ)), (1, 2)].map Prod.fst) := by
    simp
  exact ⟨h, (C6_history_buffer [((0 : ℕ), (1 : ℚ)), (1, 2)]).2.2.2.2 h⟩

/-- Claim C7: `get_current_price` is total (it never raises in the model);
on a successful fetch it returns and caches the ticker price; on a failed
fetch it returns the cached price (or 0 when none was ever observed) and
leaves the state unchanged, so two consecutive failed calls return the same
value. -/
theorem C7_get_current_price_total (st : TrackerState) (t : Ticker)
    (e₁ e₂ : PyErr) :
    ((get_current_price st (.ok t)).1 = t.last_price.getD 0 ∧
      (get_current_price st (.ok t)).2.current_price = some (t.last_price.getD 0)) ∧
    (st.current_price = none → (get_current_price st (.error e₁)).1 = 0) ∧
    (∀ p : ℚ, st.current_price = some p → (get_current_price st (.error e₁)).1 = p) ∧
    (get_current_price st (.error e₁)).2 = st ∧
    (get_current_price ((get_current_price st (.error e₁)).2) (.error e₂)).1 =
      (get_current_price st (.error e₁)).1 := by
  refine ⟨⟨rfl, rfl⟩, ?_, ?_, rfl, rfl⟩
  · intro h
    simp [get_current_price, pyOr, h]
  · intro p h
    simp only [get_current_price, pyOr, h]
    by_cases hp : p = 0
    · simp [hp]
    · simp [hp]

/-- Witness for C7 at concrete inputs: no cached price gives 0, a cached
price of 3 is returned on failure. -/
theorem C7_get_current_price_total_witness :
    (get_current_price TrackerState.init (.error .apiError)).1 = 0 ∧
    (get_current_price { current_price := some 3, price_history := [] }
      (.error .apiError)).1 = 3 :=
  ⟨(C7_get_current_price_total TrackerState.init ⟨none⟩ .apiError .apiError).2.1 rfl,
   (C7_get_current_price_total { current_price := some 3, price_history := [] }
      ⟨none⟩ .apiError .apiError).2.2.1 3 rfl⟩

/-- Claim C8 fails as stated: a specified limit of `0` is falsy in Python,
so `get_price_history(0)` returns the whole history instead of the most
recent 0 samples. -/
theorem C8_counterexample :
    get_price_history [⟨0, 1⟩] (some 0) = [⟨0, 1⟩] ∧
    specMostRecent 0 [⟨0, 1⟩] = [] ∧
    get_price_history [⟨0, 1⟩] (some 0) ≠ specMostRecent 0 [⟨0, 1⟩] := by
  refine ⟨rfl, rfl, ?_⟩
  intro h
  simp [get_price_history, specMostRecent] at h

/-- Claim C8, amended: for every positive specified limit,
`get_price_history(limit)` returns the most recent `limit` samples (all of
them when the history is shorter), and the whole history when the limit is
unspecified. -/
theorem C8_price_history_amended (hist : List PriceSample) (l : ℕ)
    (hl : 1 ≤ l) :
    get_price_history hist (some (l : ℤ)) = specMostRecent l hist ∧
    get_price_history hist none = hist := by
  refine ⟨?_, rfl⟩
  have hdef : get_price_history hist (some (l : ℤ)) =
      if (l : ℤ) ≠ 0 ∧ (l : ℤ) < (hist.length : ℤ) then pySliceFrom hist (-(l : ℤ))
      else hist := rfl
  rw [hdef]
  unfold specMostRecent
  by_cases hlen : (l : ℤ) < (hist.length : ℤ)
  · rw [if_pos ⟨(by omega : (l : ℤ) ≠ 0), hlen⟩]
    unfold pySliceFrom
    rw [if_pos (by omega : -(l : ℤ) < 0)]
    congr 1
    omega
  · rw [if_neg (by intro hc; exact hlen hc.2)]
    have h0 : hist.length - l = 0 := by omega
    rw [h0, List.drop_zero]

/-- Witness for C8 (amended) at a concrete history and limit 1. -/
theorem C8_price_history_amended_witness :
    get_price_history [⟨0, 1⟩, ⟨1, 2⟩] (some ((1 : ℕ) : ℤ)) =
      specMostRecent 1 [⟨0, 1⟩, ⟨1, 2⟩] ∧
    get_price_history [⟨0, 1⟩, ⟨1, 2⟩] none = [⟨0, 1⟩, ⟨1, 2⟩] :=
  C8_price_history_amended [⟨0, 1⟩, ⟨1, 2⟩] 1 (by omega)

/-! ## Theorems: alert delivery modes -/

/-- Claim C9: running the alert system as a registered `PriceTracker`
callback and running it as its own standalone polling loop produce identical
trigger semantics on identical observed price sequences: the notification
logs and the final `triggered_alerts` sets coincide. -/
theorem C9_callback_standalone_equiv (pair : String)
    (thresholds : List (String × ℚ)) (S : Finset AlertId)
    (hist : List PriceSample) (samples : List (ℕ × ℚ)) :
    (trackerModeRun pair thresholds hist S samples).1 =
      (standaloneRun pair thresholds S (samples.map Prod.snd)).1 ∧
    (trackerModeRun pair thresholds hist S samples).2.1 =
      (standaloneRun pair thresholds S (samples.map Prod.snd)).2 := by
  induction samples generalizing S hist with
  | nil => exact ⟨rfl, rfl⟩
  | cons sp rest ih =>
      obtain ⟨t, p⟩ := sp
      have h := ih (price_callback pair thresholds S p).2 (historyStep hist t p)
      refine ⟨?_, ?_⟩
      · show (price_callback pair thresholds S p).1 ++
            (trackerModeRun pair thresholds (historyStep hist t p)
              (price_callback pair thresholds S p).2 rest).1 = _
        rw [h.1]
        rfl
      · show (trackerModeRun pair thresholds (historyStep hist t p)
            (price_callback pair thresholds S p).2 rest).2.1 = _
        rw [h.2]
        rfl

/-! ## Theorems: trader bookkeeping -/

/-- Claim C10: calling `place_buy_order` with both `quantity` and
`total_amount` omitted raises `ValueError` before any exchange call: the
tracked orders are unchanged, no `place_order` call is made and no trade
notification is sent. -/
theorem C10_place_buy_order_requires_args (st : TraderState) (price : ℚ)
    (apiRes : Except PyErr ApiOrder) (now : ℕ) :
    place_buy_order st price none none apiRes now =
      { result := .error .valueError, trader := st, apiCall := none,
        notified := false } := rfl

/-! ## Theorems: trading state machine -/

/-- Helper: a non-truthy pending id makes the resolution phase a no-op. -/
theorem resolveOrder_not_truthy (st : AutoState) (env : CycleEnv)
    (h : truthy st.current_order_id = false) :
    resolveOrder st env = (st, false) := by
  match hcur : st.current_order_id with
  | none => simp only [resolveOrder, hcur]
  | some oid =>
      rw [hcur] at h
      simp only [truthy, bne_eq_false_iff_eq] at h
      simp only [resolveOrder, hcur]
      rw [if_pos h]

/-- Helper: closed form of the resolution phase for a truthy pending id and
a successful status poll. -/
theorem resolveOrder_ok (st : AutoState) (env : CycleEnv) (oid : String)
    (resp : StatusResp) (hcur : st.current_order_id = some oid)
    (hne : oid ≠ "") (hres : env.statusRes = .ok resp) :
    resolveOrder st env =
      (if resp.status = some "filled" then
        if st.in_position = false then
          ({ st with
              trader := { active_orders := setStatus st.trader.active_orders oid resp.status }
              in_position := true, current_order_id := none }, false)
        else
          ({ st with
              trader := { active_orders := setStatus st.trader.active_orders oid resp.status }
              in_position := false, current_order_id := none }, false)
      else if resp.status = some "cancelled" then
        ({ st with
            trader := { active_orders := setStatus st.trader.active_orders oid resp.status }
            current_order_id := none }, false)
      else
        ({ st with
            trader := { active_orders := setStatus st.trader.active_orders oid resp.status } },
          decide (resp.status = some "open" ∨ resp.status = some "partially_filled"))) := by
  simp only [resolveOrder, hcur, hres]
  rw [if_neg hne]
  split_ifs with h1 h2 h3
  · simp [h1]
  · simp [h1]
  · simp [h3]
  · rfl

/-- Claim C4: with a truthy pending order id and a successful status poll,
one cycle resolves the order as specified: `filled` toggles `in_position`
and clears the id (buy fill when flat, sell fill when in position),
`cancelled` clears the id leaving `in_position` unchanged, and
`open`/`partially_filled` leaves the machine state untouched and skips the
whole placement phase for that cycle. -/
theorem C4_pending_order_resolution (cfg : AutoConfig) (st : AutoState)
    (price : ℚ) (env : CycleEnv) (oid : String) (resp : StatusResp)
    (hcur : st.current_order_id = some oid) (hne : oid ≠ "")
    (hres : env.statusRes = .ok resp) :
    (resp.status = some "filled" → st.in_position = false →
      (resolveOrder st env).1.in_position = true ∧
      (resolveOrder st env).1.current_order_id = none) ∧
    (resp.status = some "filled" → st.in_position = true →
      (resolveOrder st env).1.in_position = false ∧
      (resolveOrder st env).1.current_order_id = none) ∧
    (resp.status = some "cancelled" →
      (resolveOrder st env).1.current_order_id = none ∧
      (resolveOrder st env).1.in_position = st.in_position) ∧
    (resp.status = some "open" ∨ resp.status = some "partially_filled" →
      (resolveOrder st env).1.in_position = st.in_position ∧
      (resolveOrder st env).1.current_order_id = st.current_order_id ∧
      (resolveOrder st env).1.buy_order_price = st.buy_order_price ∧
      (resolveOrder st env).1.buy_order_quantity = st.buy_order_quantity ∧
      (check_price_and_trade cfg st price env).1 = (resolveOrder st env).1 ∧
      (check_price_and_trade cfg st price env).2 =
        { placeCalls := [], balanceFetched := false }) := by
  have hdef := resolveOrder_ok st env oid resp hcur hne hres
  refine ⟨?_, ?_, ?_, ?_⟩
  · intro hst hpos
    rw [hdef, if_pos hst, if_pos hpos]
    exact ⟨rfl, rfl⟩
  · intro hst hpos
    rw [hdef, if_pos hst, if_neg (by simp [hpos] : ¬st.in_position = false)]
    exact ⟨rfl, rfl⟩
  · intro hst
    rw [hdef, if_neg (by simp [hst] : ¬resp.status = some "filled"), if_pos hst]
    exact ⟨rfl, rfl⟩
  · intro hst
    have hnf : ¬resp.status = some "filled" := by
      rcases hst with h | h <;> simp [h]
    have hnc : ¬resp.status = some "cancelled" := by
      rcases hst with h | h <;> simp [h]
    have hskip : decide (resp.status = some "open" ∨
        resp.status = some "partially_filled") = true := by
      simpa using hst
    have hr : resolveOrder st env =
        ({ st with
            trader := { active_orders := setStatus st.trader.active_orders oid resp.status } },
          true) := by
      rw [hdef, if_neg hnf, if_neg hnc, hskip]
    have hcp : check_price_and_trade cfg st price env =
        ((resolveOrder st env).1, { placeCalls := [], balanceFetched := false }) := by
      unfold check_price_and_trade
      rw [hr]
      simp
    rw [hr, hcp, hr]
    exact ⟨rfl, rfl, rfl, rfl, rfl, rfl⟩

/-- Helper: a truthy pending id blocks both placement branches. -/
theorem placePhase_truthy (cfg : AutoConfig) (st : AutoState) (price : ℚ)
    (env : CycleEnv) (h : truthy st.current_order_id = true) :
    placePhase cfg st price env = (st, { placeCalls := [], balanceFetched := false }) := by
  unfold placePhase
  rw [if_neg (by simp [h]), if_neg (by simp [h])]

/-- Helper: a failed balance fetch makes the placement phase preserve the
state. -/
theorem placePhase_balance_error (cfg : AutoConfig) (st : AutoState)
    (price : ℚ) (env : CycleEnv) (e : PyErr) (h : env.balanceRes = .error e) :
    (placePhase cfg st price env).1 = st := by
  unfold placePhase
  rw [h]
  split_ifs <;> rfl

/-- Helper: a failed exchange placement call makes the placement phase
preserve the state. -/
theorem placePhase_place_error (cfg : AutoConfig) (st : AutoState)
    (price : ℚ) (env : CycleEnv) (e : PyErr) (h : env.placeRes = .error e) :
    (placePhase cfg st price env).1 = st := by
  obtain ⟨sres, bres, pres, now⟩ := env
  rcases bres with eb | bal
  · exact placePhase_balance_error cfg st price ⟨sres, .error eb, pres, now⟩ eb rfl
  · simp only at h
    subst h
    simp only [placePhase, place_buy_order, place_buy_order.placeWith,
      place_sell_order]
    split_ifs <;> rfl

/-- Helper: a failed status poll makes the resolution phase a no-op. -/
theorem resolveOrder_status_error (st : AutoState) (env : CycleEnv)
    (e : PyErr) (hres : env.statusRes = .error e) :
    resolveOrder st env = (st, false) := by
  match hcur : st.current_order_id with
  | none => simp only [resolveOrder, hcur]
  | some oid =>
      simp only [resolveOrder, hcur, hres]
      simp

/-- Helper: one cycle makes at most one placement attempt. -/
theorem placePhase_placeCalls_le_one (cfg : AutoConfig) (st : AutoState)
    (price : ℚ) (env : CycleEnv) :
    (placePhase cfg st price env).2.placeCalls.length ≤ 1 := by
  obtain ⟨sres, bres, pres, now⟩ := env
  rcases bres with eb | bal <;> rcases pres with ep | ord <;>
      simp only [placePhase, place_buy_order, place_buy_order.placeWith,
        place_sell_order] <;>
    split_ifs <;> simp [Option.toList]

/-- Claim C5: a failed collaborator call never advances the state machine:
a status-poll failure leaves the whole cycle a state no-op, a balance-fetch
or placement failure leaves the state exactly as it was after the
resolution phase (the state before the failing call), so no new order is
recorded, and at most one placement attempt is made per cycle (no retry
within the cycle). -/
theorem C5_exception_preserves_state (cfg : AutoConfig) (st : AutoState)
    (price : ℚ) (env : CycleEnv) :
    (∀ oid, st.current_order_id = some oid → oid ≠ "" →
      ∀ e, env.statusRes = .error e →
        (check_price_and_trade cfg st price env).1 = st) ∧
    (∀ e, env.balanceRes = .error e →
      (check_price_and_trade cfg st price env).1 = (resolveOrder st env).1) ∧
    (∀ e, env.placeRes = .error e →
      (check_price_and_trade cfg st price env).1 = (resolveOrder st env).1) ∧
    (check_price_and_trade cfg st price env).2.placeCalls.length ≤ 1 := by
  have hbranch : ∀ h : ¬(resolveOrder st env).2 = true,
      check_price_and_trade cfg st price env =
        placePhase cfg (resolveOrder st env).1 price env := by
    intro h
    unfold check_price_and_trade
    rw [if_neg h]
  have hskip : ∀ h : (resolveOrder st env).2 = true,
      check_price_and_trade cfg st price env =
        ((resolveOrder st env).1, { placeCalls := [], balanceFetched := false }) := by
    intro h
    unfold check_price_and_trade
    rw [if_pos h]
  refine ⟨?_, ?_, ?_, ?_⟩
  · intro oid hcur hne e hres
    have hr := resolveOrder_status_error st env e hres
    have htru : truthy st.current_order_id = true := by
      rw [hcur]
      simp [truthy, hne]
    rw [hbranch (by rw [hr]; simp), hr]
    rw [placePhase_truthy cfg st price env htru]
  · intro e hbal
    by_cases hsk : (resolveOrder st env).2 = true
    · rw [hskip hsk]
    · rw [hbranch hsk]
      exact placePhase_balance_error cfg (resolveOrder st env).1 price env e hbal
  · intro e hplace
    by_cases hsk : (resolveOrder st env).2 = true
    · rw [hskip hsk]
    · rw [hbranch hsk]
      exact placePhase_place_error cfg (resolveOrder st env).1 price env e hplace
  · by_cases hsk : (resolveOrder st env).2 = true
    · rw [hskip hsk]
      simp
    · rw [hbranch hsk]
      exact placePhase_placeCalls_le_one cfg (resolveOrder st env).1 price env

/-- Witness for C5: with a pending order and an environment whose calls all
fail, the cycle changes nothing. -/
theorem C5_exception_preserves_state_witness :
    (check_price_and_trade ⟨1, 2⟩
      { in_position := false, current_order_id := some "o1",
        buy_order_price := none, buy_order_quantity := none,
        trader := { active_orders := [] } }
      1
      { statusRes := .error .apiError, balanceRes := .error .apiError,
        placeRes := .error .apiError, now := 0 }).1 =
      { in_position := false, current_order_id := some "o1",
        buy_order_price := none, buy_order_quantity := none,
        trader := { active_orders := [] } } :=
  (C5_exception_preserves_state ⟨1, 2⟩
    { in_position := false, current_order_id := some "o1",
      buy_order_price := none, buy_order_quantity := none,
      trader := { active_orders := [] } }
    1
    { statusRes := .error .apiError, balanceRes := .error .apiError,
      placeRes := .error .apiError, now := 0 }).1
    "o1" rfl (by simp) .apiError rfl

/-- Helper: closed form of the placement phase in the flat buy branch with
a successful balance fetch. -/
theorem placePhase_flat_buy (cfg : AutoConfig) (st : AutoState) (price : ℚ)
    (sres : Except PyErr StatusResp) (pres : Except PyErr ApiOrder) (now : ℕ)
    (bal : Balance) (hflat : st.in_position = false)
    (hnoord : truthy st.current_order_id = false)
    (hprice : price ≤ cfg.buy_price) :
    placePhase cfg st price ⟨sres, .ok bal, pres, now⟩ =
      (if min (bal.fiat_available * 0.95) 1000 > 10 then
        let out := place_buy_order st.trader price none
          (some (min (bal.fiat_available * 0.95) 1000)) pres now
        match out.result with
        | .error _ => ({ st with trader := out.trader },
            ⟨out.apiCall.toList, true⟩)
        | .ok order =>
            ({ st with
                trader := out.trader,
                current_order_id := order.id,
                buy_order_price := some price,
                buy_order_quantity :=
                  some (min (bal.fiat_available * 0.95) 1000 / price) },
              ⟨out.apiCall.toList, true⟩)
      else (st, ⟨[], true⟩)) := by
  unfold placePhase
  rw [if_pos ⟨hflat, hnoord⟩, if_pos hprice]

/-- Helper: truncation toward zero never rounds up. -/
theorem roundDown8_le (x : ℚ) (hx : 0 ≤ x) : roundDown8 x ≤ x := by
  unfold roundDown8 truncTowardZero
  rw [if_pos (mul_nonneg hx (by norm_num))]
  rw [div_le_iff₀ (by norm_num : (0 : ℚ) < 100000000)]
  exact Int.floor_le _

/-- Helper: the quantity of the specification example, computed exactly. -/
theorem roundDown8_spec_example :
    roundDown8 ((1000 : ℚ) / 0.65) = 1538.46153846 := by
  unfold roundDown8 truncTowardZero
  rw [if_pos (by norm_num : (0 : ℚ) ≤ 1000 / 0.65 * 100000000)]
  have harg : (1000 : ℚ) / 0.65 * 100000000 = 2000000000000 / 13 := by norm_num
  rw [harg]
  have hfloor : ⌊(2000000000000 / 13 : ℚ)⌋ = 153846153846 := by
    rw [Int.floor_eq_iff]
    norm_num
  rw [hfloor]
  norm_num

/-- Claim C2: in the flat state with no pending order and the price at or
below the buy price, a successful balance fetch yields
`spend = min(available_fiat * 0.95, 1000)`; when `spend > 10` the cycle
places exactly one limit buy at the current price whose quantity is
`spend / price` truncated toward zero to 8 decimal places (never rounded
up); when `spend <= 10` no order is placed and the state is unchanged.
With fiat 2000 at price 0.65 the spend is 1000 and the order quantity is
exactly 1538.46153846; with fiat 5 the spend is 4.75 <= 10. -/
theorem C2_buy_sizing (cfg : AutoConfig) (st : AutoState) (price : ℚ)
    (env : CycleEnv) (bal : Balance)
    (hflat : st.in_position = false)
    (hnoord : truthy st.current_order_id = false)
    (hprice : price ≤ cfg.buy_price) (hbal : env.balanceRes = .ok bal)
    (hpos : 0 < price) :
    (10 < min (bal.fiat_available * 0.95) 1000 →
      (check_price_and_trade cfg st price env).2.placeCalls =
        [("buy", price, roundDown8 (min (bal.fiat_available * 0.95) 1000 / price))] ∧
      roundDown8 (min (bal.fiat_available * 0.95) 1000 / price) ≤
        min (bal.fiat_available * 0.95) 1000 / price) ∧
    (min (bal.fiat_available * 0.95) 1000 ≤ 10 →
      (check_price_and_trade cfg st price env).1 = st ∧
      (check_price_and_trade cfg st price env).2.placeCalls = []) ∧
    (bal.fiat_available = 2000 → min (bal.fiat_available * 0.95) 1000 = 1000) ∧
    (bal.fiat_available = 2000 → price = 0.65 →
      roundDown8 (min (bal.fiat_available * 0.95) 1000 / price) = 1538.46153846) ∧
    (bal.fiat_available = 5 →
      min (bal.fiat_available * 0.95) 1000 = 4.75 ∧ (4.75 : ℚ) ≤ 10) := by
  obtain ⟨sres, bres, pres, now⟩ := env
  simp only at hbal
  subst hbal
  have hres := resolveOrder_not_truthy st ⟨sres, .ok bal, pres, now⟩ hnoord
  have hcheck : check_price_and_trade cfg st price ⟨sres, .ok bal, pres, now⟩ =
      placePhase cfg st price ⟨sres, .ok bal, pres, now⟩ := by
    unfold check_price_and_trade
    rw [hres]
    simp
  have hpp := placePhase_flat_buy cfg st price sres pres now bal hflat hnoord hprice
  have hq : place_buy_order st.trader price none
      (some (min (bal.fiat_available * 0.95) 1000)) pres now =
      place_buy_order.placeWith st.trader price
        (roundDown8 (min (bal.fiat_available * 0.95) 1000 / price)) pres now := by
    simp only [place_buy_order]
    rw [if_neg (ne_of_gt hpos)]
  refine ⟨?_, ?_, ?_, ?_, ?_⟩
  · intro hspend
    constructor
    · rw [hcheck, hpp, if_pos hspend, hq]
      unfold place_buy_order.placeWith
      rcases pres with e | order <;> simp
    · exact roundDown8_le _ (by positivity)
  · intro hspend
    rw [hcheck, hpp, if_neg (by exact not_lt.mpr hspend)]
    exact ⟨rfl, rfl⟩
  · intro hfiat
    rw [hfiat]
    rw [min_eq_right (by norm_num : (1000 : ℚ) ≤ 2000 * 0.95)]
  · intro hfiat hp
    rw [hfiat, hp, min_eq_right (by norm_num : (1000 : ℚ) ≤ 2000 * 0.95)]
    exact roundDown8_spec_example
  · intro hfiat
    rw [hfiat, min_eq_left (by norm_num : (5 : ℚ) * 0.95 ≤ 1000)]
    norm_num

/-! ## Theorems: the single-outstanding-order invariant (C1) -/

/-- Helper: updating one status leaves the dictionary keys unchanged. -/
theorem setStatus_keys (d : List (String × OrderInfo)) (k : String)
    (s : Option String) : (setStatus d k s).map Prod.fst = d.map Prod.fst := by
  unfold setStatus
  rw [List.map_map]
  exact List.map_congr_left (fun p _ => by
    by_cases hp : p.1 = k <;> simp [Function.comp, hp])

/-- Helper: membership in a status-updated dictionary. -/
theorem mem_setStatus {d : List (String × OrderInfo)} {k : String}
    {s : Option String} {p : String × OrderInfo} (h : p ∈ setStatus d k s) :
    ∃ q ∈ d, p = (if q.1 = k then (q.1, { q.2 with status := s }) else q) := by
  unfold setStatus at h
  obtain ⟨q, hq, rfl⟩ := List.mem_map.mp h
  exact ⟨q, hq, rfl⟩

/-- Helper: dictionary assignment preserves distinctness of keys. -/
theorem dictSet_keys_nodup {d : List (String × OrderInfo)} {k : String}
    {v : OrderInfo} (h : (d.map Prod.fst).Nodup) :
    ((dictSet d k v).map Prod.fst).Nodup := by
  unfold dictSet
  by_cases hany : d.any (fun p => p.1 == k)
  · rw [if_pos hany, List.map_map]
    have heq : d.map (Prod.fst ∘ fun p => if p.1 = k then (k, v) else p)
        = d.map Prod.fst :=
      List.map_congr_left (fun p _ => by
        by_cases hp : p.1 = k <;> simp [Function.comp, hp])
    rw [heq]
    exact h
  · rw [if_neg hany, List.map_append]
    have hk : k ∉ d.map Prod.fst := by
      intro hmem
      obtain ⟨q, hq, hfst⟩ := List.mem_map.mp hmem
      exact hany (List.any_eq_true.mpr ⟨q, hq, by simp [hfst]⟩)
    simp [List.nodup_append, h, hk]

/-- Helper: membership in an assigned dictionary. -/
theorem mem_dictSet {d : List (String × OrderInfo)} {k : String}
    {v : OrderInfo} {p : String × OrderInfo} (h : p ∈ dictSet d k v) :
    p = (k, v) ∨ (p ∈ d ∧ p.1 ≠ k) := by
  unfold dictSet at h
  by_cases hany : d.any (fun p => p.1 == k)
  · rw [if_pos hany] at h
    obtain ⟨q, hq, rfl⟩ := List.mem_map.mp h
    by_cases hp : q.1 = k
    · left
      simp [hp]
    · right
      simp only [if_neg hp]
      exact ⟨hq, hp⟩
  · rw [if_neg hany] at h
    rcases List.mem_append.mp h with hd | hkv
    · right
      refine ⟨hd, fun hpk => hany (List.any_eq_true.mpr ⟨p, hd, by simp [hpk]⟩)⟩
    · left
      simpa using hkv

/-- The inductive invariant behind C1: the tracked orders have distinct
keys, and every non-terminal record is the one the machine is currently
polling (its key is the truthy `current_order_id`). -/
def OrdersInv (orders : List (String × OrderInfo)) (cur : Option String) : Prop :=
  (orders.map Prod.fst).Nodup ∧
  ∀ p ∈ orders, isTerminal p.2.status = false → cur = some p.1 ∧ p.1 ≠ ""

/-- The invariant as a predicate on the full machine state. -/
def StInv (st : AutoState) : Prop :=
  OrdersInv st.trader.active_orders st.current_order_id

/-- Helper: with a non-truthy current id, every tracked record is
terminal. -/
theorem all_terminal_of_not_truthy (st : AutoState) (h : StInv st)
    (hnt : truthy st.current_order_id = false) :
    ∀ p ∈ st.trader.active_orders, isTerminal p.2.status = true := by
  intro p hp
  by_contra hfalse
  have hfalse2 : isTerminal p.2.status = false := by
    revert hfalse
    cases isTerminal p.2.status <;> simp
  obtain ⟨hc, hne⟩ := h.2 p hp hfalse2
  rw [hc] at hnt
  simp [truthy, hne] at hnt

/-- Helper: an all-terminal dictionary satisfies the invariant for any
current id. -/
theorem OrdersInv_all_terminal (orders : List (String × OrderInfo))
    (cur : Option String) (hnd : (orders.map Prod.fst).Nodup)
    (hterm : ∀ p ∈ orders, isTerminal p.2.status = true) :
    OrdersInv orders cur :=
  ⟨hnd, fun p hp hnt => absurd (hterm p hp) (by simp [hnt])⟩

/-- Helper: recording a fresh order over an all-terminal dictionary
restores the invariant with the new id as current. -/
theorem OrdersInv_dictSet (orders : List (String × OrderInfo)) (oid : String)
    (rec : OrderInfo) (hnd : (orders.map Prod.fst).Nodup)
    (hterm : ∀ p ∈ orders, isTerminal p.2.status = true) (hne : oid ≠ "") :
    OrdersInv (dictSet orders oid rec) (some oid) := by
  refine ⟨dictSet_keys_nodup hnd, ?_⟩
  intro p hp hnt
  rcases mem_dictSet hp with rfl | ⟨hpd, hpk⟩
  · exact ⟨rfl, hne⟩
  · exact absurd (hterm p hpd) (by simp [hnt])

/-- Helper: the resolution phase preserves the invariant. -/
theorem StInv_resolveOrder (st : AutoState) (env : CycleEnv) (h : StInv st) :
    StInv (resolveOrder st env).1 := by
  match hcur : st.current_order_id with
  | none =>
      rw [resolveOrder_not_truthy st env (by rw [hcur]; rfl)]
      exact h
  | some oid =>
      by_cases hne : oid = ""
      · rw [resolveOrder_not_truthy st env (by rw [hcur]; simp [truthy, hne])]
        exact h
      · match hres : env.statusRes with
        | .error e =>
            rw [resolveOrder_status_error st env e hres]
            exact h
        | .ok resp =>
            have hdef := resolveOrder_ok st env oid resp hcur hne hres
            have hfact : ∀ p ∈ setStatus st.trader.active_orders oid resp.status,
                isTerminal p.2.status = false →
                  p.1 = oid ∧ p.2.status = resp.status := by
              intro p hp hnt
              obtain ⟨q, hq, hpq⟩ := mem_setStatus hp
              by_cases hqk : q.1 = oid
              · rw [if_pos hqk] at hpq
                subst hpq
                exact ⟨hqk, rfl⟩
              · rw [if_neg hqk] at hpq
                subst hpq
                obtain ⟨hc, _⟩ := h.2 p hq hnt
                rw [hcur] at hc
                exact absurd (Option.some.inj hc).symm hqk
            have hnd : ((setStatus st.trader.active_orders oid resp.status).map
                Prod.fst).Nodup := by
              rw [setStatus_keys]
              exact h.1
            split_ifs at hdef with h1 h2 h3
            · rw [hdef]
              refine ⟨hnd, ?_⟩
              intro p hp hnt
              obtain ⟨_, hstat⟩ := hfact p hp hnt
              rw [hstat, h1] at hnt
              simp [isTerminal] at hnt
            · rw [hdef]
              refine ⟨hnd, ?_⟩
              intro p hp hnt
              obtain ⟨_, hstat⟩ := hfact p hp hnt
              rw [hstat, h1] at hnt
              simp [isTerminal] at hnt
            · rw [hdef]
              refine ⟨hnd, ?_⟩
              intro p hp hnt
              obtain ⟨_, hstat⟩ := hfact p hp hnt
              rw [hstat, h3] at hnt
              simp [isTerminal] at hnt
            · rw [hdef]
              refine ⟨hnd, ?_⟩
              intro p hp hnt
              obtain ⟨hk, _⟩ := hfact p hp hnt
              exact ⟨by rw [hk]; exact hcur, by rw [hk]; exact hne⟩

/-- Helper: the placement phase preserves the invariant. -/
theorem StInv_placePhase (cfg : AutoConfig) (st : AutoState) (price : ℚ)
    (env : CycleEnv) (h : StInv st) : StInv (placePhase cfg st price env).1 := by
  obtain ⟨sres, bres, pres, now⟩ := env
  rcases bres with eb | bal
  · rw [placePhase_balance_error cfg st price ⟨sres, .error eb, pres, now⟩ eb rfl]
    exact h
  · rcases pres with ep | ord
    · rw [placePhase_place_error cfg st price ⟨sres, .ok bal, .error ep, now⟩ ep rfl]
      exact h
    · simp only [placePhase, place_buy_order, place_buy_order.placeWith,
        place_sell_order]
      split_ifs with hA hbuy hamt hz htr hC hsell hcrypto htr2 <;> try exact h
      · show OrdersInv (dictSet st.trader.active_orders (ord.id.getD "") _) ord.id
        have hterm := all_terminal_of_not_truthy st h hA.2
        rcases hid : ord.id with _ | sid
        · rw [hid] at htr
          simp [truthy] at htr
        · rw [hid] at htr
          simp only [truthy, bne_iff_ne] at htr
          simp only [Option.getD_some]
          exact OrdersInv_dictSet st.trader.active_orders sid _ h.1 hterm htr
      · show OrdersInv st.trader.active_orders ord.id
        exact OrdersInv_all_terminal _ _ h.1 (all_terminal_of_not_truthy st h hA.2)
      · show OrdersInv (dictSet st.trader.active_orders (ord.id.getD "") _) ord.id
        have hterm := all_terminal_of_not_truthy st h hC.2
        rcases hid : ord.id with _ | sid
        · rw [hid] at htr2
          simp [truthy] at htr2
        · rw [hid] at htr2
          simp only [truthy, bne_iff_ne] at htr2
          simp only [Option.getD_some]
          exact OrdersInv_dictSet st.trader.active_orders sid _ h.1 hterm htr2
      · show OrdersInv st.trader.active_orders ord.id
        exact OrdersInv_all_terminal _ _ h.1 (all_terminal_of_not_truthy st h hC.2)

/-- Helper: one full polling cycle preserves the invariant. -/
theorem StInv_cycle (cfg : AutoConfig) (st : AutoState) (price : ℚ)
    (env : CycleEnv) (h : StInv st) :
    StInv (check_price_and_trade cfg st price env).1 := by
  unfold check_price_and_trade
  by_cases hsk : (resolveOrder st env).2 = true
  · rw [if_pos hsk]
    exact StInv_resolveOrder st env h
  · rw [if_neg hsk]
    exact StInv_placePhase cfg (resolveOrder st env).1 price env
      (StInv_resolveOrder st env h)

/-- Helper: every reachable state satisfies the invariant. -/
theorem StInv_reachable (cfg : AutoConfig) (st : AutoState)
    (h : Reachable cfg st) : StInv st := by
  induction h with
  | init =>
      refine ⟨by simp [AutoState.init], ?_⟩
      intro p hp
      simp [AutoState.init] at hp
  | step st price env hr ih => exact StInv_cycle cfg st price env ih

/-- Helper: when all non-terminal records share one key, at most one record
is non-terminal. -/
theorem filter_nonterminal_le_one (l : List (String × OrderInfo))
    (cur : Option String) (hnd : (l.map Prod.fst).Nodup)
    (hall : ∀ p ∈ l, isTerminal p.2.status = false → cur = some p.1) :
    (l.filter (fun p => !isTerminal p.2.status)).length ≤ 1 := by
  induction l with
  | nil => simp
  | cons q rest ih =>
      simp only [List.map_cons, List.nodup_cons] at hnd
      by_cases hq : isTerminal q.2.status = true
      · rw [List.filter_cons_of_neg (by simp [hq])]
        exact ih hnd.2 (fun p hp hnt => hall p (List.mem_cons_of_mem q hp) hnt)
      · have hq2 : isTerminal q.2.status = false := by
          revert hq
          cases isTerminal q.2.status <;> simp
        rw [List.filter_cons_of_pos (by simp [hq2])]
        have hrest : rest.filter (fun p => !isTerminal p.2.status) = [] := by
          rw [List.filter_eq_nil_iff]
          intro p hp
          by_contra hb
          have hnt : isTerminal p.2.status = false := by
            revert hb
            cases isTerminal p.2.status <;> simp
          have h1 := hall q (List.mem_cons_self q rest) hq2
          have h2 := hall p (List.mem_cons_of_mem q hp) hnt
          rw [h1] at h2
          have : p.1 = q.1 := (Option.some.inj h2).symm
          exact hnd.1 (this ▸ List.mem_map_of_mem Prod.fst hp)
        rw [hrest]
        simp

/-- Claim C1: from the initial flat state, under every sequence of polling
cycles and every environment behaviour, no reachable state tracks two
non-terminal OrderRecords: the active (non-filled, non-cancelled) orders
reported by `Trader.get_active_orders` never number more than one. -/
theorem C1_at_most_one_outstanding (cfg : AutoConfig) (st : AutoState)
    (h : Reachable cfg st) :
    (get_active_orders st.trader).length ≤ 1 := by
  have hinv := StInv_reachable cfg st h
  unfold get_active_orders
  rw [List.length_map]
  exact filter_nonterminal_le_one _ st.current_order_id hinv.1
    (fun p hp hnt => (hinv.2 p hp hnt).1)

/-- Witness for C1 at the initial state. -/
theorem C1_at_most_one_outstanding_witness :
    (get_active_orders AutoState.init.trader).length ≤ 1 :=
  C1_at_most_one_outstanding ⟨1, 2⟩ AutoState.init Reachable.init

/-! ## Theorems: alert hysteresis (C3) -/

/-- Helper: one threshold entry never changes membership of a different
identifier. -/
theorem checkEntry_mem_of_ne {p : ℚ} {acc : List TriggeredAlert × Finset AlertId}
    {e : String × ℚ} {a : AlertId} (hne : a ≠ (e.1, e.2)) :
    (a ∈ (checkEntry p acc e).2 ↔ a ∈ acc.2) := by
  simp only [checkEntry]
  split_ifs <;> simp [Finset.mem_insert, Finset.mem_erase, hne]

/-- Helper: folding entries whose keys avoid an identifier's key leaves its
membership unchanged. -/
theorem fold_mem_of_key_not_mem {p : ℚ} {entries : List (String × ℚ)}
    {a : AlertId} (h : a.1 ∉ entries.map Prod.fst) :
    ∀ acc, (a ∈ (entries.foldl (checkEntry p) acc).2 ↔ a ∈ acc.2) := by
  induction entries with
  | nil => exact fun acc => Iff.rfl
  | cons e rest ih =>
      intro acc
      simp only [List.map_cons, List.mem_cons] at h
      push_neg at h
      rw [List.foldl_cons]
      rw [ih h.2 (checkEntry p acc e)]
      exact checkEntry_mem_of_ne (fun heq => h.1 (by rw [heq]))

/-- Helper: one entry removes an identifier from the triggered set only when
it is that entry and its hysteresis condition holds. -/
theorem checkEntry_removed {p : ℚ} {acc : List TriggeredAlert × Finset AlertId}
    {e : String × ℚ} {a : AlertId} (hin : a ∈ acc.2)
    (hout : a ∉ (checkEntry p acc e).2) :
    a = (e.1, e.2) ∧ rearms e.1 e.2 p := by
  simp only [checkEntry] at hout
  split_ifs at hout with h1 h2 h3 h4 h5
  · exact absurd hin hout
  · exact absurd (Finset.mem_insert_of_mem hin) hout
  · exact absurd hin hout
  · exact absurd (Finset.mem_insert_of_mem hin) hout
  · have ha : a = (e.1, e.2) := by
      by_contra hne
      exact hout (Finset.mem_erase.mpr ⟨hne, hin⟩)
    exact ⟨ha, h5⟩
  · exact absurd hin hout

/-- Helper: an identifier leaves the triggered set during one
`check_alerts` fold only via the hysteresis rule of its own entry. -/
theorem fold_removed {p : ℚ} {entries : List (String × ℚ)} {a : AlertId} :
    ∀ acc, a ∈ acc.2 → a ∉ (entries.foldl (checkEntry p) acc).2 →
      a ∈ entries ∧ rearms a.1 a.2 p := by
  induction entries with
  | nil => exact fun acc hin hout => absurd hin hout
  | cons e rest ih =>
      intro acc hin hout
      rw [List.foldl_cons] at hout
      by_cases hmid : a ∈ (checkEntry p acc e).2
      · obtain ⟨hmem, hre⟩ := ih (checkEntry p acc e) hmid hout
        exact ⟨List.mem_cons_of_mem e hmem, hre⟩
      · obtain ⟨heq, hre⟩ := checkEntry_removed hin hmid
        refine ⟨?_, ?_⟩
        · rw [heq]
          exact List.mem_cons_self e rest
        · rw [heq]
          exact hre

/-- Helper: an identifier whose hysteresis condition fails stays in the
triggered set across one `check_alerts` fold. -/
theorem fold_mem_of_no_rearm {p : ℚ} {entries : List (String × ℚ)}
    {a : AlertId} (acc : List TriggeredAlert × Finset AlertId)
    (hin : a ∈ acc.2) (hno : ¬rearms a.1 a.2 p) :
    a ∈ (entries.foldl (checkEntry p) acc).2 := by
  by_contra hout
  exact hno (fold_removed acc hin hout).2

/-- Helper: every record produced by one fold either was already in the
accumulator or belongs to one of the folded entries at the current price. -/
theorem fold_fst_mem {p : ℚ} {entries : List (String × ℚ)}
    {r : TriggeredAlert} :
    ∀ acc, r ∈ (entries.foldl (checkEntry p) acc).1 →
      r ∈ acc.1 ∨ ((r.type, r.threshold) ∈ entries ∧ r.current_price = p) := by
  induction entries with
  | nil => exact fun acc h => Or.inl h
  | cons e rest ih =>
      intro acc h
      rw [List.foldl_cons] at h
      rcases ih (checkEntry p acc e) h with hmid | ⟨hmem, hp⟩
      · have hsub : (checkEntry p acc e).1 = acc.1 ∨
            (checkEntry p acc e).1 = acc.1 ++ [⟨e.1, e.2, p⟩] := by
          simp only [checkEntry]
          split_ifs <;> simp
        rcases hsub with hs | hs
        · rw [hs] at hmid
          exact Or.inl hmid
        · rw [hs] at hmid
          rcases List.mem_append.mp hmid with hacc | hrec
          · exact Or.inl hacc
          · simp only [List.mem_singleton] at hrec
            subst hrec
            exact Or.inr ⟨List.mem_cons_self e rest, rfl⟩
      · exact Or.inr ⟨List.mem_cons_of_mem e hmem, hp⟩

/-- Helper: a fired trigger record means the identifier was armed (absent
from the triggered set) before the call, is present after it, and belongs
to the threshold mapping. -/
theorem fires_spec (ths : List (String × ℚ)) (S : Finset AlertId) (p : ℚ)
    (k : String) (thr : ℚ) (hnd : (ths.map Prod.fst).Nodup)
    (h : (⟨k, thr, p⟩ : TriggeredAlert) ∈ (check_alerts ths S p).1) :
    (k, thr) ∉ S ∧ (k, thr) ∈ (check_alerts ths S p).2 ∧ (k, thr) ∈ ths := by
  have hmem : ((k, thr) : AlertId) ∈ ths := by
    rcases fold_fst_mem ([], S) h with h0 | ⟨hmem, _⟩
    · simp at h0
    · exact hmem
  obtain ⟨l₁, l₂, hths⟩ := List.append_of_mem hmem
  subst hths
  have hkeys : k ∉ l₁.map Prod.fst ∧ k ∉ l₂.map Prod.fst := by
    rw [List.map_append, List.map_cons] at hnd
    rw [List.nodup_append] at hnd
    obtain ⟨hnd₁, hnd₂, hdisj⟩ := hnd
    rw [List.nodup_cons] at hnd₂
    exact ⟨fun hk => hdisj hk (List.mem_cons_self _ _), hnd₂.1⟩
  have hfold : check_alerts (l₁ ++ (k, thr) :: l₂) S p =
      l₂.foldl (checkEntry p) (checkEntry p (l₁.foldl (checkEntry p) ([], S)) (k, thr)) := by
    unfold check_alerts
    rw [List.foldl_append, List.foldl_cons]
  have hmid1 : (⟨k, thr, p⟩ : TriggeredAlert) ∉ (l₁.foldl (checkEntry p) ([], S)).1 := by
    intro hmemr
    rcases fold_fst_mem ([], S) hmemr with h0 | ⟨hpair, _⟩
    · simp at h0
    · exact hkeys.1 (List.mem_map_of_mem Prod.fst hpair)
  have hmidS : ((k, thr) : AlertId) ∈ (l₁.foldl (checkEntry p) ([], S)).2 ↔
      ((k, thr) : AlertId) ∈ S := fold_mem_of_key_not_mem hkeys.1 ([], S)
  rw [hfold] at h
  have hstep : (⟨k, thr, p⟩ : TriggeredAlert) ∈
      (checkEntry p (l₁.foldl (checkEntry p) ([], S)) (k, thr)).1 := by
    rcases fold_fst_mem (checkEntry p (l₁.foldl (checkEntry p) ([], S)) (k, thr)) h with
      hin | ⟨hpair, _⟩
    · exact hin
    · exact absurd (List.mem_map_of_mem Prod.fst hpair) hkeys.2
  have hkey : ((k, thr) : AlertId) ∉ (l₁.foldl (checkEntry p) ([], S)).2 ∧
      ((k, thr) : AlertId) ∈ (checkEntry p (l₁.foldl (checkEntry p) ([], S)) (k, thr)).2 := by
    revert hstep
    simp only [checkEntry]
    split_ifs with h1 h2 h3 h4 h5 <;> intro hstep
    · exact absurd hstep hmid1
    · exact ⟨h2, Finset.mem_insert_self _ _⟩
    · exact absurd hstep hmid1
    · exact ⟨h4, Finset.mem_insert_self _ _⟩
    · exact absurd hstep hmid1
    · exact absurd hstep hmid1
  refine ⟨fun hS => hkey.1 (hmidS.mpr hS), ?_, hmem⟩
  rw [hfold]
  exact (fold_mem_of_key_not_mem hkeys.2 _).mpr hkey.2

/-- Helper: extending the fed price sequence by its next element. -/
theorem take_succ_getD (ps : List ℚ) (m : ℕ) (hm : m < ps.length) :
    ps.take (m + 1) = ps.take m ++ [ps.getD m 0] := by
  rw [List.take_succ]
  congr 1
  have h1 : ps[m]? = some ps[m] := List.getElem?_eq_getElem hm
  rw [List.getD_eq_getElem?_getD, h1]
  rfl

/-- Helper: the triggered set after `m + 1` fed prices is one `check_alerts`
call applied to the set after `m` prices. -/
theorem runSet_take_succ (thresholds : List (String × ℚ)) (S₀ : Finset AlertId)
    (ps : List ℚ) (m : ℕ) (hm : m < ps.length) :
    runSet thresholds S₀ (ps.take (m + 1)) =
      (check_alerts thresholds (runSet thresholds S₀ (ps.take m)) (ps.getD m 0)).2 := by
  rw [take_succ_getD ps m hm]
  unfold runSet
  rw [List.foldl_append]
  rfl

/-- Helper: an identifier stays in the triggered set across steps at which
its hysteresis condition fails. -/
theorem mem_runSet_persist (thresholds : List (String × ℚ))
    (S₀ : Finset AlertId) (ps : List ℚ) (a : AlertId) (i j : ℕ) (hij : i ≤ j)
    (hj : j ≤ ps.length) (hin : a ∈ runSet thresholds S₀ (ps.take i))
    (hno : ∀ m, i ≤ m → m < j → ¬rearms a.1 a.2 (ps.getD m 0)) :
    a ∈ runSet thresholds S₀ (ps.take j) := by
  induction j, hij using Nat.le_induction with
  | base => exact hin
  | succ n hn ih =>
      have hn2 : n < ps.length := by omega
      rw [runSet_take_succ thresholds S₀ ps n hn2]
      exact fold_mem_of_no_rearm _
        (ih (by omega) (fun m hm1 hm2 => hno m hm1 (by omega)))
        (hno n hn (by omega))

/-- Helper: between a step where an identifier is triggered and a later
step where it is gone, some intermediate price satisfied its hysteresis
condition. -/
theorem exists_rearm_between (thresholds : List (String × ℚ))
    (S₀ : Finset AlertId) (ps : List ℚ) (a : AlertId) (i j : ℕ) (hij : i ≤ j)
    (hj : j ≤ ps.length) (hin : a ∈ runSet thresholds S₀ (ps.take i))
    (hout : a ∉ runSet thresholds S₀ (ps.take j)) :
    ∃ m, i ≤ m ∧ m < j ∧ rearms a.1 a.2 (ps.getD m 0) := by
  by_contra hc
  push_neg at hc
  exact hout (mem_runSet_persist thresholds S₀ ps a i j hij hj hin
    (fun m hm1 hm2 => hc m hm1 hm2))

/-- Helper: the alert-type keys used by the concrete example. -/
theorem pyLower_high : pyLower "high" = "high" := rfl

/-- Helper: the two alert kinds are distinct strings. -/
theorem high_ne_low : (("high" : String) = "low") = False := by simp

/-- Claim C3: against any threshold mapping (distinct dictionary keys) and
any price sequence, each (kind, threshold) pair fires at most once per
excursion: a second firing requires an intermediate price satisfying the
hysteresis re-arm condition; an entry leaves the TriggeredAlertSet only by
that rule; and feeding [0.70, 0.72, 0.715, 0.72] against high threshold
0.71 triggers exactly once, at the first 0.72. -/
theorem C3_alert_hysteresis (thresholds : List (String × ℚ))
    (S₀ : Finset AlertId) (ps : List ℚ)
    (hnd : (thresholds.map Prod.fst).Nodup) :
    (∀ k thr i j, i < j → j < ps.length →
      firesAt thresholds S₀ ps k thr i → firesAt thresholds S₀ ps k thr j →
      ∃ m, i < m ∧ m < j ∧ rearms k thr (ps.getD m 0)) ∧
    (∀ a : AlertId, ∀ S : Finset AlertId, ∀ p : ℚ,
      a ∈ S → a ∉ (check_alerts thresholds S p).2 →
      a ∈ thresholds ∧ rearms a.1 a.2 p) ∧
    (runLog [("high", 0.71)] ∅ [0.70, 0.72, 0.715, 0.72] =
      [[], [⟨"high", 0.71, 0.72⟩], [], []]) := by
  refine ⟨?_, ?_, ?_⟩
  · intro k thr i j hij hj hfi hfj
    unfold firesAt at hfi hfj
    have hspec_i := fires_spec thresholds _ (ps.getD i 0) k thr hnd hfi
    have hspec_j := fires_spec thresholds _ (ps.getD j 0) k thr hnd hfj
    have hin : ((k, thr) : AlertId) ∈ runSet thresholds S₀ (ps.take (i + 1)) := by
      rw [runSet_take_succ thresholds S₀ ps i (by omega)]
      exact hspec_i.2.1
    obtain ⟨m, hm1, hm2, hre⟩ := exists_rearm_between thresholds S₀ ps (k, thr)
      (i + 1) j (by omega) (by omega) hin hspec_j.1
    exact ⟨m, by omega, hm2, hre⟩
  · intro a S p hin hout
    exact fold_removed ([], S) hin hout
  · norm_num [runLog, check_alerts, checkEntry, pyLower_high, high_ne_low,
      Finset.mem_insert, Finset.mem_singleton, Prod.mk.injEq]

/-- Witness for C3: the entry (high, 0.71) is removed from a triggered set
exactly by the hysteresis rule at price 0.5. -/
theorem C3_alert_hysteresis_witness :
    (("high", (0.71 : ℚ)) : AlertId) ∈ ([("high", (0.71 : ℚ))] : List (String × ℚ)) ∧
    rearms "high" 0.71 0.5 := by
  have h := (C3_alert_hysteresis [("high", 0.71)] ∅ [] (by simp)).2.1
    ("high", 0.71) {("high", 0.71)} 0.5 (by simp)
    (by
      norm_num [check_alerts, checkEntry, pyLower_high, high_ne_low,
        Finset.mem_insert, Finset.mem_singleton, Prod.mk.injEq])
  exact h

/-- Witness for C2: from the initial flat state with fiat 2000 at price
0.65, the cycle places a buy of exactly 1538.46153846 units. -/
theorem C2_buy_sizing_witness :
    (check_price_and_trade ⟨0.65, 0.75⟩ AutoState.init 0.65
      { statusRes := .error .apiError, balanceRes := .ok ⟨0, 2000⟩,
        placeRes := .ok ⟨some "b1"⟩, now := 0 }).2.placeCalls =
      [("buy", 0.65, 1538.46153846)] := by
  have h := C2_buy_sizing ⟨0.65, 0.75⟩ AutoState.init 0.65
    { statusRes := .error .apiError, balanceRes := .ok ⟨0, 2000⟩,
      placeRes := .ok ⟨some "b1"⟩, now := 0 }
    ⟨0, 2000⟩ rfl rfl (le_refl _) rfl (by norm_num)
  have hspend : (10 : ℚ) < min ((2000 : ℚ) * 0.95) 1000 := by
    rw [min_eq_right (by norm_num : (1000 : ℚ) ≤ 2000 * 0.95)]
    norm_num
  have h1 := h.1 hspend
  have h2 := h.2.2.2.1 rfl rfl
  rw [h1.1, h2]

/-- Witness for C4: a concrete buy fill transitions flat to in-position and
clears the pending id. -/
theorem C4_pending_order_resolution_witness :
    (resolveOrder
      { in_position := false, current_order_id := some "o1",
        buy_order_price := some 1, buy_order_quantity := some 2,
        trader := { active_orders := [] } }
      { statusRes := .ok ⟨some "filled"⟩, balanceRes := .error .apiError,
        placeRes := .error .apiError, now := 0 }).1.in_position = true ∧
    (resolveOrder
      { in_position := false, current_order_id := some "o1",
        buy_order_price := some 1, buy_order_quantity := some 2,
        trader := { active_orders := [] } }
      { statusRes := .ok ⟨some "filled"⟩, balanceRes := .error .apiError,
        placeRes := .error .apiError, now := 0 }).1.current_order_id = none :=
  (C4_pending_order_resolution ⟨1, 2⟩
    { in_position := false, current_order_id := some "o1",
      buy_order_price := some 1, buy_order_quantity := some 2,
      trader := { active_orders := [] } }
    0
    { statusRes := .ok ⟨some "filled"⟩, balanceRes := .error .apiError,
      placeRes := .error .apiError, now := 0 }
    "o1" ⟨some "filled"⟩ rfl (by simp) rfl).1 rfl rfl

end CoinDCX
